import Mathlib

set_option maxHeartbeats 1000000

/-!
Verification of the force-directed layout engine of the tkCanvasGraph
repository.  The layout code (canvasGraph/layout.py, class
OneStepForceBasedLayout and class ForceBasedLayout) and the oval shape
intersection (tkCanvasGraph/shape.py, class Oval) are shallowly embedded
below.  Python floats are modelled as real numbers.  Python operations that
can raise ZeroDivisionError are modelled with Option: a function returns
none exactly on the inputs where the Python code would raise a division
error, and some of the computed value otherwise.
-/

/-- Lookup in an association list, mirroring Python dictionary access d[k]
for dictionaries (whose keys are distinct). -/
def dictLookup {V β : Type} [DecidableEq V] : List (V × β) → V → Option β
  | [], _ => none
  | p :: ps, n => if p.1 = n then some p.2 else dictLookup ps n

/-- The total position function obtained from a position association list;
looking up a key that is absent (a caller precondition violation in the
Python code) yields the junk value (0, 0). -/
noncomputable def posFun {V : Type} [DecidableEq V]
    (positions : List (V × (ℝ × ℝ))) : V → ℝ × ℝ :=
  fun v => (dictLookup positions v).getD (0, 0)

/-- Run an Option-valued function over a list, failing when any call fails;
models a Python loop whose body may raise. -/
def traverseOption {α β : Type} (f : α → Option β) : List α → Option (List β)
  | [] => some []
  | x :: xs =>
    match f x, traverseOption f xs with
    | some y, some ys => some (y :: ys)
    | _, _ => none

/-- The configuration fields of class OneStepForceBasedLayout. -/
structure OneStepForceBasedLayout where
  minSpringLength : ℝ
  springStiffness : ℝ
  electricalRepulsion : ℝ
  maxForce : ℝ

/-- The field values set by the constructor of OneStepForceBasedLayout. -/
noncomputable def OneStepForceBasedLayout.init : OneStepForceBasedLayout :=
  ⟨60, 0.1, 500, 10⟩

/-- Embedding of OneStepForceBasedLayout._distance_vector_from.  The vertex
dimensions() method is modelled by the function dims.  A comparison written
with the Python operator flipped (xoc greater than xvc) is written here as
the same comparison with the operands exchanged.  The function returns none
exactly when a square-root denominator is zero, where the Python code would
raise ZeroDivisionError. -/
noncomputable def distance_vector_from {V : Type} (pos dims : V → ℝ × ℝ)
    (vertex other : V) : Option (ℝ × ℝ × ℝ × ℝ) :=
  let xvc := (pos vertex).1
  let yvc := (pos vertex).2
  let xoc := (pos other).1
  let yoc := (pos other).2
  let xv1 := xvc + (dims vertex).1 / 2
  let yv1 := yvc + (dims vertex).2 / 2
  let xo1 := xoc + (dims other).1 / 2
  let yo1 := yoc + (dims other).2 / 2
  let av := xv1 - xvc
  let bv := yv1 - yvc
  let ao := xo1 - xoc
  let bo := yo1 - yoc
  if xoc ≠ xvc then
    let m := |(yoc - yvc) / (xoc - xvc)|
    let sv := Real.sqrt (av * av * m * m + bv * bv)
    let so := Real.sqrt (ao * ao * m * m + bo * bo)
    if sv = 0 ∨ so = 0 then none
    else
      let dvx := av * bv / sv * (if xoc < xvc then -1 else 1)
      let dox := ao * bo / so * (if xvc < xoc then -1 else 1)
      let dvy := av * bv * m / sv * (if yoc < yvc then -1 else 1)
      let doy := ao * bo * m / so * (if yvc < yoc then -1 else 1)
      some (xvc + dvx, yvc + dvy, xoc + dox, yoc + doy)
  else
    let dvx := (0 : ℝ)
    let dox := (0 : ℝ)
    let dvy := bv * (if yoc < yvc then -1 else 1)
    let doy := bo * (if yvc < yoc then -1 else 1)
    some (xvc + dvx, yvc + dvy, xoc + dox, yoc + doy)

/-- Embedding of OneStepForceBasedLayout._hooke_attraction.  Returns none
exactly when the Python code would raise ZeroDivisionError, that is when the
boundary distance is zero and the overlap test did not fire. -/
noncomputable def hooke_attraction {V : Type} (self : OneStepForceBasedLayout)
    (pos dims : V → ℝ × ℝ) (vertex other : V) : Option (ℝ × ℝ) :=
  match distance_vector_from pos dims vertex other with
  | none => none
  | some (dx0, dy0, dx1, dy1) =>
    let vcx := (pos vertex).1
    let vcy := (pos vertex).2
    let ocx := (pos other).1
    let ocy := (pos other).2
    if (ocx - vcx) * (dx1 - dx0) < 0 ∨ (ocy - vcy) * (dy1 - dy0) < 0 then
      some (0, 0)
    else
      let dx := dx1 - dx0
      let dy := dy1 - dy0
      let distance := Real.sqrt (dx * dx + dy * dy)
      if distance = 0 then none
      else
        let dcx := ocx - vcx
        let dcy := ocy - vcy
        let length := max (Real.sqrt (dcx * dcx + dcy * dcy) - distance)
          self.minSpringLength
        let force := max (min (-self.springStiffness * (length - distance) /
          distance) self.maxForce) (-self.maxForce)
        some (force * dx, force * dy)

/-- The boundary difference vector (dx, dy) used by _hooke_attraction after
the distance vector computation (the value dx1 - dx0, dy1 - dy0 at the start
of the force computation). -/
noncomputable def hookeDelta {V : Type} (pos dims : V → ℝ × ℝ)
    (vertex other : V) : Option (ℝ × ℝ) :=
  match distance_vector_from pos dims vertex other with
  | none => none
  | some (dx0, dy0, dx1, dy1) => some (dx1 - dx0, dy1 - dy0)

/-- The difference vector (dx, dy) computed by _coulomb_repulsion: the
boundary difference with the coordinates of the distance vector exchanged
(negated difference) on the axes where the overlap test fires. -/
noncomputable def coulombDelta {V : Type} (pos dims : V → ℝ × ℝ)
    (vertex other : V) : Option (ℝ × ℝ) :=
  match distance_vector_from pos dims vertex other with
  | none => none
  | some (dx0, dy0, dx1, dy1) =>
    let vcx := (pos vertex).1
    let vcy := (pos vertex).2
    let ocx := (pos other).1
    let ocy := (pos other).2
    let dx := if (ocx - vcx) * (dx1 - dx0) < 0 then dx0 - dx1 else dx1 - dx0
    let dy := if (ocy - vcy) * (dy1 - dy0) < 0 then dy0 - dy1 else dy1 - dy0
    some (dx, dy)

/-- Embedding of OneStepForceBasedLayout._coulomb_repulsion, factored
through coulombDelta.  Returns none exactly when the Python code would raise
ZeroDivisionError, that is when the (possibly swapped) boundary distance is
zero. -/
noncomputable def coulomb_repulsion {V : Type} (self : OneStepForceBasedLayout)
    (pos dims : V → ℝ × ℝ) (vertex other : V) : Option (ℝ × ℝ) :=
  match coulombDelta pos dims vertex other with
  | none => none
  | some (dx, dy) =>
    let distance := Real.sqrt (dx * dx + dy * dy)
    if distance = 0 then none
    else
      let force := max (min (-self.electricalRepulsion / (distance * distance))
        self.maxForce) (-self.maxForce)
      some (force * dx, force * dy)

/-- The repulsion-force accumulation loop of OneStepForceBasedLayout.apply:
for v in positions, if vertex is not v, add the coulomb repulsion. -/
noncomputable def sumRepulsion {V : Type} [DecidableEq V]
    (self : OneStepForceBasedLayout) (pos dims : V → ℝ × ℝ) (vertex : V) :
    List V → ℝ × ℝ → Option (ℝ × ℝ)
  | [], acc => some acc
  | v :: vs, acc =>
    if vertex ≠ v then
      match coulomb_repulsion self pos dims vertex v with
      | none => none
      | some f => sumRepulsion self pos dims vertex vs (acc.1 + f.1, acc.2 + f.2)
    else sumRepulsion self pos dims vertex vs acc

/-- The spring-force accumulation loop of OneStepForceBasedLayout.apply:
for each edge incident to vertex, add the hooke attraction towards the other
end.  An edge is an ordered pair (origin, end). -/
noncomputable def sumAttraction {V : Type} [DecidableEq V]
    (self : OneStepForceBasedLayout) (pos dims : V → ℝ × ℝ) (vertex : V) :
    List (V × V) → ℝ × ℝ → Option (ℝ × ℝ)
  | [], acc => some acc
  | e :: es, acc =>
    if e.1 = vertex ∨ e.2 = vertex then
      let other := if e.1 = vertex then e.2 else e.1
      match hooke_attraction self pos dims vertex other with
      | none => none
      | some f => sumAttraction self pos dims vertex es (acc.1 + f.1, acc.2 + f.2)
    else sumAttraction self pos dims vertex es acc

/-- The total force accumulated on one vertex by the first loop of
OneStepForceBasedLayout.apply: repulsion from every other vertex, then
attraction along every incident edge. -/
noncomputable def vertexForce {V : Type} [DecidableEq V]
    (self : OneStepForceBasedLayout) (keys : List V) (pos dims : V → ℝ × ℝ)
    (edges : List (V × V)) (vertex : V) : Option (ℝ × ℝ) :=
  match sumRepulsion self pos dims vertex keys (0, 0) with
  | none => none
  | some f => sumAttraction self pos dims vertex edges f

/-- The forces dictionary computed by the first loop of
OneStepForceBasedLayout.apply, as an association list in key order. -/
noncomputable def computeForces {V : Type} [DecidableEq V]
    (self : OneStepForceBasedLayout) (keys : List V) (pos dims : V → ℝ × ℝ)
    (edges : List (V × V)) : Option (List (V × (ℝ × ℝ))) :=
  traverseOption
    (fun v => (vertexForce self keys pos dims edges v).map (fun f => (v, f)))
    keys

/-- Embedding of OneStepForceBasedLayout.apply: compute the force on every
vertex of the position map, then integrate to new positions (keeping fixed
vertices at their input coordinates) and return the new position map together
with the mean force magnitude; the mean division is guarded by a test that
the new position map is non-empty. -/
noncomputable def OneStepForceBasedLayout.apply {V : Type} [DecidableEq V]
    (self : OneStepForceBasedLayout) (dims : V → ℝ × ℝ)
    (positions : List (V × (ℝ × ℝ))) (edges : List (V × V)) (fixed : List V) :
    Option (List (V × (ℝ × ℝ)) × ℝ) :=
  let keys := positions.map Prod.fst
  let pos := posFun positions
  match computeForces self keys pos dims edges with
  | none => none
  | some forces =>
    let newPositions := forces.map (fun p =>
      (p.1, if p.1 ∈ fixed then pos p.1
            else ((pos p.1).1 + p.2.1, (pos p.1).2 + p.2.2)))
    let sumForces :=
      (forces.map (fun p => Real.sqrt (p.2.1 * p.2.1 + p.2.2 * p.2.2))).sum
    some (newPositions,
      if 0 < newPositions.length then sumForces / (newPositions.length : ℝ)
      else 0)

/-- The configuration fields of class ForceBasedLayout, which extends
OneStepForceBasedLayout. -/
structure ForceBasedLayout extends OneStepForceBasedLayout where
  iterationNumber : ℕ
  forceThreshold : ℝ

/-- The field values set by the constructor of ForceBasedLayout. -/
noncomputable def ForceBasedLayout.init : ForceBasedLayout :=
  ⟨OneStepForceBasedLayout.init, 1000, 0.001⟩

/-- The iteration loop of ForceBasedLayout.apply: run the one-step layout,
stop early when the returned mean force drops below the threshold. -/
noncomputable def ForceBasedLayout.loop {V : Type} [DecidableEq V]
    (self : ForceBasedLayout) (dims : V → ℝ × ℝ) (edges : List (V × V))
    (fixed : List V) : ℕ → List (V × (ℝ × ℝ)) → Option (List (V × (ℝ × ℝ)))
  | 0, np => some np
  | Nat.succ n, np =>
    match self.toOneStepForceBasedLayout.apply dims np edges fixed with
    | none => none
    | some pr =>
      if pr.2 < self.forceThreshold then some pr.1
      else ForceBasedLayout.loop self dims edges fixed n pr.1

/-- Embedding of ForceBasedLayout.apply: iterate the one-step layout at most
iterationNumber times, feeding each new position map back in. -/
noncomputable def ForceBasedLayout.apply {V : Type} [DecidableEq V]
    (self : ForceBasedLayout) (dims : V → ℝ × ℝ)
    (vertices : List (V × (ℝ × ℝ))) (edges : List (V × V)) (fixed : List V) :
    Option (List (V × (ℝ × ℝ))) :=
  ForceBasedLayout.loop self dims edges fixed self.iterationNumber vertices

/-- The sequential procedure named by the batch-versus-step claim: run the
single-step strategy n times, feeding each output position map back as the
next input and discarding the residual. -/
noncomputable def iterateOneStep {V : Type} [DecidableEq V]
    (self : OneStepForceBasedLayout) (dims : V → ℝ × ℝ)
    (edges : List (V × V)) (fixed : List V) :
    ℕ → List (V × (ℝ × ℝ)) → Option (List (V × (ℝ × ℝ)))
  | 0, p => some p
  | Nat.succ n, p =>
    match self.apply dims p edges fixed with
    | none => none
    | some pr => iterateOneStep self dims edges fixed n pr.1

/-- Modelled from the spec words for the residual: the arithmetic mean, over
all nodes, of the Euclidean magnitude of each node force vector. -/
noncomputable def meanForceMagnitude (forces : List (ℝ × ℝ)) : ℝ :=
  (forces.map (fun f => Real.sqrt (f.1 * f.1 + f.2 * f.2))).sum /
    (forces.length : ℝ)

/-- Embedding of Oval.intersection from tkCanvasGraph/shape.py: the point
where the segment from the center of the bounding box to the end point
crosses the inscribed ellipse.  Returns none exactly when the square-root
denominator is zero, where the Python code would raise ZeroDivisionError. -/
noncomputable def Oval.intersection (bbox : ℝ × ℝ × ℝ × ℝ) (e : ℝ × ℝ) :
    Option (ℝ × ℝ) :=
  let xo0 := bbox.1
  let xo1 := bbox.2.2.1
  let yo1 := bbox.2.2.2
  let yo0 := bbox.2.1
  let xoc := (xo1 + xo0) / 2
  let yoc := (yo1 + yo0) / 2
  let xec := e.1
  let yec := e.2
  let ao := xo1 - xoc
  let bo := yo1 - yoc
  if xec ≠ xoc then
    let m := (yec - yoc) / (xec - xoc)
    let s := Real.sqrt (ao * ao * m * m + bo * bo)
    if s = 0 then none
    else
      let dox := ao * bo / s
      let doy := ao * bo * m / s
      some ((if xoc ≤ xec then xoc + dox else xoc - dox),
            (if xoc < xec then yoc + doy else yoc - doy))
  else
    let dox := (0 : ℝ)
    let doy := bo * (if yoc < yec then -1 else 1)
    some ((if xoc ≤ xec then xoc + dox else xoc - dox),
          (if xoc < xec then yoc + doy else yoc - doy))

/-- A dimensions function giving every vertex a 20 by 20 bounding box. -/
noncomputable def dims20 : ℕ → ℝ × ℝ := fun _ => (20, 20)

/-- One vertex at the origin. -/
noncomputable def pos1 : List (ℕ × (ℝ × ℝ)) := [(0, (0, 0))]

/-- Two vertices 100 apart on the x axis. -/
noncomputable def pos2 : List (ℕ × (ℝ × ℝ)) := [(0, (0, 0)), (1, (100, 0))]

/-- Two vertices 25 apart on the x axis (boundary gap 5). -/
noncomputable def pos25 : List (ℕ × (ℝ × ℝ)) := [(0, (0, 0)), (1, (25, 0))]

/-- Two distinct vertices at the same point. -/
noncomputable def posC : List (ℕ × (ℝ × ℝ)) := [(0, (0, 0)), (1, (0, 0))]

/-- The expected output position map for pos2 with vertex 0 fixed. -/
noncomputable def np2 : List (ℕ × (ℝ × ℝ)) := [(0, (0, 0)), (1, (425 / 4, 0))]

/-- A batch configuration with one iteration and force threshold zero. -/
noncomputable def fblOne : ForceBasedLayout :=
  ⟨OneStepForceBasedLayout.init, 1, 0⟩

lemma sqrt_of_sq {y x : ℝ} (hy : 0 ≤ y) (h : y * y = x) : Real.sqrt x = y := by
  subst h
  exact Real.sqrt_mul_self hy

lemma posFun_pos2_0 : posFun pos2 0 = ((0 : ℝ), (0 : ℝ)) := rfl

lemma posFun_pos2_1 : posFun pos2 1 = ((100 : ℝ), (0 : ℝ)) := rfl

lemma posFun_pos1_0 : posFun pos1 0 = ((0 : ℝ), (0 : ℝ)) := rfl

lemma posFun_pos25_0 : posFun pos25 0 = ((0 : ℝ), (0 : ℝ)) := rfl

lemma posFun_pos25_1 : posFun pos25 1 = ((25 : ℝ), (0 : ℝ)) := rfl

lemma posFun_posC_0 : posFun posC 0 = ((0 : ℝ), (0 : ℝ)) := rfl

lemma posFun_posC_1 : posFun posC 1 = ((0 : ℝ), (0 : ℝ)) := rfl

lemma dv_pos2_01 :
    distance_vector_from (posFun pos2) dims20 0 1 = some (10, 0, 90, 0) := by
  have h100 : Real.sqrt 100 = 10 := sqrt_of_sq (by norm_num) (by norm_num)
  norm_num [distance_vector_from, posFun_pos2_0, posFun_pos2_1, dims20, h100]

lemma dv_pos2_10 :
    distance_vector_from (posFun pos2) dims20 1 0 = some (90, 0, 10, 0) := by
  have h100 : Real.sqrt 100 = 10 := sqrt_of_sq (by norm_num) (by norm_num)
  norm_num [distance_vector_from, posFun_pos2_0, posFun_pos2_1, dims20, h100]

lemma dv_pos25_01 :
    distance_vector_from (posFun pos25) dims20 0 1 = some (10, 0, 15, 0) := by
  have h100 : Real.sqrt 100 = 10 := sqrt_of_sq (by norm_num) (by norm_num)
  norm_num [distance_vector_from, posFun_pos25_0, posFun_pos25_1, dims20, h100]

lemma dv_pos1_00 :
    distance_vector_from (posFun pos1) dims20 0 0 = some (0, 10, 0, 10) := by
  norm_num [distance_vector_from, posFun_pos1_0, dims20]

lemma dv_posC_01 :
    distance_vector_from (posFun posC) dims20 0 1 = some (0, 10, 0, 10) := by
  norm_num [distance_vector_from, posFun_posC_0, posFun_posC_1, dims20]

lemma cd_pos2_01 :
    coulombDelta (posFun pos2) dims20 0 1 = some (80, 0) := by
  norm_num [coulombDelta, dv_pos2_01, posFun_pos2_0, posFun_pos2_1]

lemma cd_pos2_10 :
    coulombDelta (posFun pos2) dims20 1 0 = some (-80, 0) := by
  norm_num [coulombDelta, dv_pos2_10, posFun_pos2_0, posFun_pos2_1]

lemma cd_pos25_01 :
    coulombDelta (posFun pos25) dims20 0 1 = some (5, 0) := by
  norm_num [coulombDelta, dv_pos25_01, posFun_pos25_0, posFun_pos25_1]

lemma cd_posC_01 :
    coulombDelta (posFun posC) dims20 0 1 = some (0, 0) := by
  norm_num [coulombDelta, dv_posC_01, posFun_posC_0, posFun_posC_1]

lemma rep_pos2_01 :
    coulomb_repulsion OneStepForceBasedLayout.init (posFun pos2) dims20 0 1 =
      some (-(25 / 4), 0) := by
  have h6400 : Real.sqrt 6400 = 80 := sqrt_of_sq (by norm_num) (by norm_num)
  norm_num [coulomb_repulsion, cd_pos2_01, h6400, OneStepForceBasedLayout.init,
    min_def, max_def]

lemma rep_pos2_10 :
    coulomb_repulsion OneStepForceBasedLayout.init (posFun pos2) dims20 1 0 =
      some (25 / 4, 0) := by
  have h6400 : Real.sqrt 6400 = 80 := sqrt_of_sq (by norm_num) (by norm_num)
  norm_num [coulomb_repulsion, cd_pos2_10, h6400, OneStepForceBasedLayout.init,
    min_def, max_def]

lemma rep_pos25_01 :
    coulomb_repulsion OneStepForceBasedLayout.init (posFun pos25) dims20 0 1 =
      some (-50, 0) := by
  have h25 : Real.sqrt 25 = 5 := sqrt_of_sq (by norm_num) (by norm_num)
  norm_num [coulomb_repulsion, cd_pos25_01, h25, OneStepForceBasedLayout.init,
    min_def, max_def]

lemma rep_posC_01 :
    coulomb_repulsion OneStepForceBasedLayout.init (posFun posC) dims20 0 1 =
      none := by
  norm_num [coulomb_repulsion, cd_posC_01]

lemma hooke_pos1_00 :
    hooke_attraction OneStepForceBasedLayout.init (posFun pos1) dims20 0 0 =
      none := by
  norm_num [hooke_attraction, dv_pos1_00, posFun_pos1_0]

lemma vf_pos2_0 :
    vertexForce OneStepForceBasedLayout.init [0, 1] (posFun pos2) dims20 [] 0 =
      some (-(25 / 4), 0) := by
  norm_num [vertexForce, sumRepulsion, sumAttraction, rep_pos2_01]

lemma vf_pos2_1 :
    vertexForce OneStepForceBasedLayout.init [0, 1] (posFun pos2) dims20 [] 1 =
      some (25 / 4, 0) := by
  norm_num [vertexForce, sumRepulsion, sumAttraction, rep_pos2_10]

lemma cf_pos2 :
    computeForces OneStepForceBasedLayout.init [0, 1] (posFun pos2) dims20 [] =
      some [(0, (-(25 / 4), 0)), (1, (25 / 4, 0))] := by
  norm_num [computeForces, traverseOption, vf_pos2_0, vf_pos2_1]

lemma apply_pos2 :
    OneStepForceBasedLayout.init.apply dims20 pos2 [] [0] =
      some (np2, 25 / 4) := by
  have hk : pos2.map Prod.fst = [0, 1] := rfl
  have hs : Real.sqrt (625 / 16) = 25 / 4 :=
    sqrt_of_sq (by norm_num) (by norm_num)
  norm_num [OneStepForceBasedLayout.apply, hk, cf_pos2, np2, posFun_pos2_0,
    posFun_pos2_1, hs]

lemma vf_pos1_selfloop :
    vertexForce OneStepForceBasedLayout.init [0] (posFun pos1) dims20
      [(0, 0)] 0 = none := by
  norm_num [vertexForce, sumRepulsion, sumAttraction, hooke_pos1_00]

lemma apply_pos1_selfloop :
    OneStepForceBasedLayout.init.apply dims20 pos1 [(0, 0)] [] = none := by
  have hk : pos1.map Prod.fst = [0] := rfl
  norm_num [-Prod.mk_zero_zero, OneStepForceBasedLayout.apply, hk,
    computeForces, traverseOption, vf_pos1_selfloop]

lemma vf_pos1_0 :
    vertexForce OneStepForceBasedLayout.init [0] (posFun pos1) dims20 [] 0 =
      some (0, 0) := by
  norm_num [vertexForce, sumRepulsion, sumAttraction]

lemma apply_pos1 :
    OneStepForceBasedLayout.init.apply dims20 pos1 [] [] =
      some (pos1, 0) := by
  have hk : pos1.map Prod.fst = [0] := rfl
  norm_num [OneStepForceBasedLayout.apply, hk, computeForces, traverseOption,
    vf_pos1_0, posFun_pos1_0]
  norm_num [pos1]

lemma traverseOption_cons_some {α β : Type} {f : α → Option β} {x : α}
    {xs : List α} {ys : List β}
    (h : traverseOption f (x :: xs) = some ys) :
    ∃ y ys', f x = some y ∧ traverseOption f xs = some ys' ∧ ys = y :: ys' := by
  cases hfx : f x with
  | none => simp [traverseOption, hfx] at h
  | some y =>
    cases hxs : traverseOption f xs with
    | none => simp [traverseOption, hfx, hxs] at h
    | some ys' =>
      refine ⟨y, ys', rfl, rfl, ?_⟩
      simp only [traverseOption, hfx, hxs, Option.some.injEq] at h
      exact h.symm

lemma computeForces_sound {V : Type} [DecidableEq V]
    (self : OneStepForceBasedLayout) (pos dims : V → ℝ × ℝ)
    (edges : List (V × V)) (keys0 : List V) :
    ∀ (keys : List V) (forces : List (V × (ℝ × ℝ))),
      traverseOption (fun v => (vertexForce self keys0 pos dims edges v).map
        (fun f => (v, f))) keys = some forces →
      forces.map Prod.fst = keys ∧
        ∀ q ∈ forces, vertexForce self keys0 pos dims edges q.1 = some q.2 := by
  intro keys
  induction keys with
  | nil =>
    intro forces h
    simp only [traverseOption, Option.some.injEq] at h
    subst h
    simp
  | cons x xs ih =>
    intro forces h
    obtain ⟨y, ys', hfx, hxs, hys⟩ := traverseOption_cons_some h
    subst hys
    obtain ⟨hfst, hval⟩ := ih ys' hxs
    cases hvf : vertexForce self keys0 pos dims edges x with
    | none => rw [hvf] at hfx; simp at hfx
    | some fx =>
      rw [hvf] at hfx
      simp only [Option.map_some', Option.some.injEq] at hfx
      subst hfx
      constructor
      · simp [hfst]
      · intro q hq
        rcases List.mem_cons.mp hq with hq | hq
        · subst hq
          simpa using hvf
        · exact hval q hq

lemma dictLookup_some_mem {V β : Type} [DecidableEq V] :
    ∀ (l : List (V × β)) (n : V) (b : β),
      dictLookup l n = some b → n ∈ l.map Prod.fst := by
  intro l
  induction l with
  | nil => intro n b h; simp [dictLookup] at h
  | cons p ps ih =>
    intro n b h
    simp only [dictLookup] at h
    by_cases hp : p.1 = n
    · simp [hp]
    · rw [if_neg hp] at h
      simp [ih n b h]

lemma dictLookup_fun {V β : Type} [DecidableEq V] (G : V → β) :
    ∀ (l : List (V × β)) (n : V), (∀ q ∈ l, q.2 = G q.1) →
      n ∈ l.map Prod.fst → dictLookup l n = some (G n) := by
  intro l
  induction l with
  | nil => intro n _ hn; simp at hn
  | cons p ps ih =>
    intro n hval hn
    simp only [dictLookup]
    by_cases hp : p.1 = n
    · rw [if_pos hp]
      rw [hval p (by simp), hp]
    · rw [if_neg hp]
      refine ih n (fun q hq => hval q (by simp [hq])) ?_
      simp only [List.map_cons, List.mem_cons] at hn
      rcases hn with hn | hn
      · exact absurd hn.symm hp
      · exact hn

lemma apply_some_inv {V : Type} [DecidableEq V]
    (self : OneStepForceBasedLayout) (dims : V → ℝ × ℝ)
    (positions : List (V × (ℝ × ℝ))) (edges : List (V × V)) (fixed : List V)
    (np : List (V × (ℝ × ℝ))) (r : ℝ)
    (h : self.apply dims positions edges fixed = some (np, r)) :
    ∃ forces,
      computeForces self (positions.map Prod.fst) (posFun positions) dims
          edges = some forces ∧
      np = forces.map (fun p =>
        (p.1, if p.1 ∈ fixed then posFun positions p.1
              else ((posFun positions p.1).1 + p.2.1,
                    (posFun positions p.1).2 + p.2.2))) ∧
      r = (if 0 < np.length then
            (forces.map (fun p =>
              Real.sqrt (p.2.1 * p.2.1 + p.2.2 * p.2.2))).sum / (np.length : ℝ)
           else 0) := by
  simp only [OneStepForceBasedLayout.apply] at h
  cases hcf : computeForces self (positions.map Prod.fst) (posFun positions)
      dims edges with
  | none => rw [hcf] at h; simp at h
  | some forces =>
    rw [hcf] at h
    simp only [Option.some.injEq, Prod.mk.injEq] at h
    obtain ⟨hnp, hr⟩ := h
    exact ⟨forces, rfl, hnp.symm, by rw [← hnp, ← hr]⟩

lemma computeForces_sound' {V : Type} [DecidableEq V]
    (self : OneStepForceBasedLayout) (keys : List V) (pos dims : V → ℝ × ℝ)
    (edges : List (V × V)) (forces : List (V × (ℝ × ℝ)))
    (h : computeForces self keys pos dims edges = some forces) :
    forces.map Prod.fst = keys ∧
      ∀ q ∈ forces, vertexForce self keys pos dims edges q.1 = some q.2 :=
  computeForces_sound self pos dims edges keys keys forces h

/-- Claim C1: whenever one application of OneStepForceBasedLayout.apply
returns a result, every node of the fixed set that is a key of the input
position map is mapped by the returned position map to exactly the same
coordinate pair as in the input position map (the force on such a node is
still computed, but its position is copied unchanged). -/
theorem fixed_nodes_keep_position {V : Type} [DecidableEq V]
    (self : OneStepForceBasedLayout) (dims : V → ℝ × ℝ)
    (positions : List (V × (ℝ × ℝ))) (edges : List (V × V)) (fixed : List V)
    (np : List (V × (ℝ × ℝ))) (r : ℝ) (n : V) (p : ℝ × ℝ)
    (hn : n ∈ fixed) (hp : dictLookup positions n = some p)
    (h : self.apply dims positions edges fixed = some (np, r)) :
    dictLookup np n = some p := by
  obtain ⟨forces, hcf, hnp, -⟩ :=
    apply_some_inv self dims positions edges fixed np r h
  obtain ⟨hfst, hval⟩ := computeForces_sound' self (positions.map Prod.fst)
    (posFun positions) dims edges forces hcf
  subst hnp
  have hlk : dictLookup (forces.map (fun p =>
      (p.1, if p.1 ∈ fixed then posFun positions p.1
            else ((posFun positions p.1).1 + p.2.1,
                  (posFun positions p.1).2 + p.2.2)))) n =
      some (if n ∈ fixed then posFun positions n
            else ((posFun positions n).1 +
              ((vertexForce self (positions.map Prod.fst) (posFun positions)
                dims edges n).getD (0, 0)).1,
              (posFun positions n).2 +
              ((vertexForce self (positions.map Prod.fst) (posFun positions)
                dims edges n).getD (0, 0)).2)) := by
    apply dictLookup_fun (fun v => if v ∈ fixed then posFun positions v
      else ((posFun positions v).1 +
        ((vertexForce self (positions.map Prod.fst) (posFun positions)
          dims edges v).getD (0, 0)).1,
        (posFun positions v).2 +
        ((vertexForce self (positions.map Prod.fst) (posFun positions)
          dims edges v).getD (0, 0)).2))
    · intro q hq
      obtain ⟨pq, hpq, rfl⟩ := List.mem_map.mp hq
      by_cases hf : pq.1 ∈ fixed
      · simp [hf]
      · have hv := hval pq hpq
        simp [hf, hv]
    · have h1 : (forces.map (fun p =>
          (p.1, if p.1 ∈ fixed then posFun positions p.1
                else ((posFun positions p.1).1 + p.2.1,
                      (posFun positions p.1).2 + p.2.2)))).map Prod.fst =
          forces.map Prod.fst := by
        rw [List.map_map]
        rfl
      rw [h1, hfst]
      exact dictLookup_some_mem positions n p hp
  rw [hlk, if_pos hn]
  simp [posFun, hp]

/-- Witness for claim C1: two nodes 100 apart, node 0 fixed; the step keeps
node 0 exactly at the origin while node 1 moves. -/
theorem fixed_nodes_keep_position_witness :
    (0 : ℕ) ∈ [0] ∧ dictLookup pos2 0 = some ((0 : ℝ), (0 : ℝ)) ∧
    OneStepForceBasedLayout.init.apply dims20 pos2 [] [0] =
      some (np2, 25 / 4) ∧
    dictLookup np2 0 = some ((0 : ℝ), (0 : ℝ)) :=
  ⟨by decide, rfl, apply_pos2,
    fixed_nodes_keep_position OneStepForceBasedLayout.init dims20 pos2 [] [0]
      np2 (25 / 4) 0 ((0 : ℝ), (0 : ℝ)) (by decide) rfl apply_pos2⟩

/-- Claim C2: whenever one application of OneStepForceBasedLayout.apply on a
non-empty position map returns a result, the returned position map has
exactly the same key list as the input position map. -/
theorem apply_preserves_keys {V : Type} [DecidableEq V]
    (self : OneStepForceBasedLayout) (dims : V → ℝ × ℝ)
    (positions : List (V × (ℝ × ℝ))) (edges : List (V × V)) (fixed : List V)
    (np : List (V × (ℝ × ℝ))) (r : ℝ)
    (_hne : positions ≠ [])
    (h : self.apply dims positions edges fixed = some (np, r)) :
    np.map Prod.fst = positions.map Prod.fst := by
  obtain ⟨forces, hcf, hnp, -⟩ :=
    apply_some_inv self dims positions edges fixed np r h
  obtain ⟨hfst, -⟩ := computeForces_sound' self (positions.map Prod.fst)
    (posFun positions) dims edges forces hcf
  subst hnp
  rw [List.map_map]
  calc forces.map (Prod.fst ∘ fun p =>
        (p.1, if p.1 ∈ fixed then posFun positions p.1
              else ((posFun positions p.1).1 + p.2.1,
                    (posFun positions p.1).2 + p.2.2)))
      = forces.map Prod.fst := rfl
    _ = positions.map Prod.fst := hfst

/-- Witness for claim C2: the two-node step keeps the key list [0, 1]. -/
theorem apply_preserves_keys_witness :
    pos2 ≠ [] ∧ np2.map Prod.fst = pos2.map Prod.fst :=
  ⟨by simp [pos2],
    apply_preserves_keys OneStepForceBasedLayout.init dims20 pos2 [] [0]
      np2 (25 / 4) (by simp [pos2]) apply_pos2⟩

/-- Claim C10: one step of OneStepForceBasedLayout.apply on an empty
position map returns the empty map and residual 0, for any edge set and
fixed set, without a division error: the mean-residual division is guarded
by the emptiness test. -/
theorem apply_empty_positions {V : Type} [DecidableEq V]
    (self : OneStepForceBasedLayout) (dims : V → ℝ × ℝ)
    (edges : List (V × V)) (fixed : List V) :
    self.apply dims ([] : List (V × (ℝ × ℝ))) edges fixed = some ([], 0) := by
  simp [OneStepForceBasedLayout.apply, computeForces, traverseOption]

/-- Claim C8: whenever one application of OneStepForceBasedLayout.apply on a
non-empty position map returns a result, the returned residual equals the
arithmetic mean, over all nodes of the position map (fixed nodes included),
of the Euclidean magnitude of the accumulated force vector of the node. -/
theorem residual_is_mean_force_magnitude {V : Type} [DecidableEq V]
    (self : OneStepForceBasedLayout) (dims : V → ℝ × ℝ)
    (positions : List (V × (ℝ × ℝ))) (edges : List (V × V)) (fixed : List V)
    (np : List (V × (ℝ × ℝ))) (r : ℝ) (forces : List (V × (ℝ × ℝ)))
    (hne : positions ≠ [])
    (hcf : computeForces self (positions.map Prod.fst) (posFun positions)
      dims edges = some forces)
    (h : self.apply dims positions edges fixed = some (np, r)) :
    r = meanForceMagnitude (forces.map Prod.snd) := by
  obtain ⟨forces', hcf', hnp, hr⟩ :=
    apply_some_inv self dims positions edges fixed np r h
  rw [hcf] at hcf'
  injection hcf' with e
  subst e
  obtain ⟨hfst, -⟩ := computeForces_sound' self (positions.map Prod.fst)
    (posFun positions) dims edges forces hcf
  have hlenf : forces.length = positions.length := by
    calc forces.length = (forces.map Prod.fst).length :=
          (List.length_map _ _).symm
      _ = (positions.map Prod.fst).length := by rw [hfst]
      _ = positions.length := List.length_map _ _
  have hlen : np.length = forces.length := by
    rw [hnp]
    exact List.length_map _ _
  have hpos : 0 < np.length := by
    rw [hlen, hlenf]
    exact List.length_pos.mpr hne
  rw [hr, if_pos hpos]
  unfold meanForceMagnitude
  rw [List.map_map, hlen, List.length_map]
  rfl

/-- Witness for claim C8: the two-node step returns residual 25 / 4, the
mean of the two force magnitudes 25 / 4 and 25 / 4. -/
theorem residual_is_mean_force_magnitude_witness :
    pos2 ≠ [] ∧
    (25 / 4 : ℝ) = meanForceMagnitude
      ([(0, (-(25 / 4), 0)), (1, (25 / 4, 0))].map
        (Prod.snd : ℕ × (ℝ × ℝ) → ℝ × ℝ)) :=
  ⟨by simp [pos2],
    residual_is_mean_force_magnitude OneStepForceBasedLayout.init dims20 pos2
      [] [0] np2 (25 / 4) [(0, (-(25 / 4), 0)), (1, (25 / 4, 0))]
      (by simp [pos2]) cf_pos2 apply_pos2⟩

/-- Claim C3 (refuted, code bug): a self-loop edge (A, A) is not skipped by
the spring loop of OneStepForceBasedLayout.apply; _hooke_attraction is then
called with vertex = other, its boundary distance is zero, and the force
division raises ZeroDivisionError (modelled as none), so the whole step
fails instead of adding a zero attraction force. -/
theorem selfloop_division_error :
    hooke_attraction OneStepForceBasedLayout.init (posFun pos1) dims20 0 0 =
      none ∧
    OneStepForceBasedLayout.init.apply dims20 pos1 [(0, 0)] [] = none :=
  ⟨hooke_pos1_00, apply_pos1_selfloop⟩

/-- Claim C4 (refuted, code bug): for two distinct nodes of identical shape
at exactly the same position the boundary distance is zero, and
_coulomb_repulsion divides by it, raising ZeroDivisionError (modelled as
none) instead of returning a clamped force of magnitude maxForce. -/
theorem coincident_repulsion_division_error :
    posFun posC 0 = posFun posC 1 ∧
    coulomb_repulsion OneStepForceBasedLayout.init (posFun posC) dims20 0 1 =
      none :=
  ⟨rfl, rep_posC_01⟩

lemma apply_residual_nonneg {V : Type} [DecidableEq V]
    (self : OneStepForceBasedLayout) (dims : V → ℝ × ℝ)
    (positions : List (V × (ℝ × ℝ))) (edges : List (V × V)) (fixed : List V)
    (np : List (V × (ℝ × ℝ))) (r : ℝ)
    (h : self.apply dims positions edges fixed = some (np, r)) : 0 ≤ r := by
  obtain ⟨forces, -, -, hr⟩ :=
    apply_some_inv self dims positions edges fixed np r h
  rw [hr]
  split
  · apply div_nonneg
    · apply List.sum_nonneg
      intro x hx
      obtain ⟨q, -, rfl⟩ := List.mem_map.mp hx
      exact Real.sqrt_nonneg _
    · exact Nat.cast_nonneg _
  · exact le_refl 0

/-- Claim C5: with forceThreshold 0, the batch strategy
ForceBasedLayout.apply computes exactly the sequential iteration of the
single-step strategy, iterationNumber times, feeding each output position
map back as the next input. -/
theorem batch_equals_iterated_steps {V : Type} [DecidableEq V]
    (self : ForceBasedLayout) (dims : V → ℝ × ℝ)
    (positions : List (V × (ℝ × ℝ))) (edges : List (V × V)) (fixed : List V)
    (hthr : self.forceThreshold = 0) :
    self.apply dims positions edges fixed =
      iterateOneStep self.toOneStepForceBasedLayout dims edges fixed
        self.iterationNumber positions := by
  unfold ForceBasedLayout.apply
  generalize self.iterationNumber = N
  induction N generalizing positions with
  | zero => simp [ForceBasedLayout.loop, iterateOneStep]
  | succ n ih =>
    rw [ForceBasedLayout.loop, iterateOneStep]
    cases hstep : self.toOneStepForceBasedLayout.apply dims positions edges
        fixed with
    | none => rfl
    | some pr =>
      have hnn : ¬ pr.2 < self.forceThreshold := by
        rw [hthr]
        exact not_lt.mpr (apply_residual_nonneg self.toOneStepForceBasedLayout
          dims positions edges fixed pr.1 pr.2 (by rw [hstep]))
      simp only [if_neg hnn]
      exact ih pr.1

lemma iterate_one_pos1 :
    iterateOneStep OneStepForceBasedLayout.init dims20 [] [] 1 pos1 =
      some pos1 := by
  show iterateOneStep OneStepForceBasedLayout.init dims20 [] [] (Nat.succ 0)
    pos1 = some pos1
  rw [iterateOneStep, apply_pos1]
  rfl

/-- Witness for claim C5: a one-iteration, zero-threshold batch layout on a
single node equals one sequential step, and both return the input map. -/
theorem batch_equals_iterated_steps_witness :
    fblOne.forceThreshold = 0 ∧
    iterateOneStep fblOne.toOneStepForceBasedLayout dims20 [] []
      fblOne.iterationNumber pos1 = some pos1 ∧
    fblOne.apply dims20 pos1 [] [] =
      iterateOneStep fblOne.toOneStepForceBasedLayout dims20 [] []
        fblOne.iterationNumber pos1 :=
  ⟨rfl, iterate_one_pos1,
    batch_equals_iterated_steps fblOne dims20 pos1 [] [] rfl⟩

lemma distance_vector_from_swap {V : Type} (pos dims : V → ℝ × ℝ) (A B : V)
    (x1 y1 x2 y2 : ℝ)
    (h : distance_vector_from pos dims A B = some (x1, y1, x2, y2)) :
    distance_vector_from pos dims B A = some (x2, y2, x1, y1) := by
  simp only [distance_vector_from] at h ⊢
  by_cases hx : (pos B).1 = (pos A).1
  · rw [if_neg (by simp [hx])] at h
    rw [if_neg (by simp [hx])]
    simp only [Option.some.injEq, Prod.mk.injEq] at h ⊢
    exact ⟨h.2.2.1, h.2.2.2, h.1, h.2.1⟩
  · rw [if_pos hx] at h
    have hm : ((pos A).2 - (pos B).2) / ((pos A).1 - (pos B).1) =
        ((pos B).2 - (pos A).2) / ((pos B).1 - (pos A).1) := by
      rw [← neg_sub ((pos B).2) ((pos A).2), ← neg_sub ((pos B).1) ((pos A).1),
        neg_div_neg_eq]
    rw [if_pos (Ne.symm hx), hm]
    split at h
    · simp at h
    next hs =>
      rw [if_neg (fun hc => hs hc.symm)]
      simp only [Option.some.injEq, Prod.mk.injEq] at h ⊢
      exact ⟨h.2.2.1, h.2.2.2, h.1, h.2.1⟩

lemma coulombDelta_swap {V : Type} (pos dims : V → ℝ × ℝ) (A B : V)
    (dx dy : ℝ) (h : coulombDelta pos dims A B = some (dx, dy)) :
    coulombDelta pos dims B A = some (-dx, -dy) := by
  unfold coulombDelta at h ⊢
  cases hdv : distance_vector_from pos dims A B with
  | none => rw [hdv] at h; simp at h
  | some t =>
    obtain ⟨x1, y1, x2, y2⟩ := t
    rw [hdv] at h
    rw [distance_vector_from_swap pos dims A B x1 y1 x2 y2 hdv]
    dsimp only at h ⊢
    simp only [Option.some.injEq, Prod.mk.injEq] at h ⊢
    obtain ⟨hdx, hdy⟩ := h
    constructor
    · have hc : ((pos A).1 - (pos B).1) * (x1 - x2) =
          ((pos B).1 - (pos A).1) * (x2 - x1) := by ring
      rw [hc, ← hdx]
      split <;> ring
    · have hc : ((pos A).2 - (pos B).2) * (y1 - y2) =
          ((pos B).2 - (pos A).2) * (y2 - y1) := by ring
      rw [hc, ← hdy]
      split <;> ring

/-- Claim C6: the coulomb repulsion obeys the third law of Newton: whenever
the repulsion of B on A is computed (any placement on which the computation
is defined, in particular every non-degenerate non-overlapping placement),
the repulsion of A on B is its exact componentwise negation. -/
theorem coulomb_repulsion_antisymm {V : Type}
    (self : OneStepForceBasedLayout) (pos dims : V → ℝ × ℝ) (A B : V)
    (fx fy : ℝ)
    (h : coulomb_repulsion self pos dims A B = some (fx, fy)) :
    coulomb_repulsion self pos dims B A = some (-fx, -fy) := by
  unfold coulomb_repulsion at h ⊢
  cases hcd : coulombDelta pos dims A B with
  | none => rw [hcd] at h; simp at h
  | some d =>
    obtain ⟨dx, dy⟩ := d
    rw [hcd] at h
    rw [coulombDelta_swap pos dims A B dx dy hcd]
    dsimp only at h ⊢
    have heq : -dx * -dx + -dy * -dy = dx * dx + dy * dy := by ring
    rw [heq]
    split at h
    · simp at h
    next hd =>
      rw [if_neg hd]
      simp only [Option.some.injEq, Prod.mk.injEq] at h ⊢
      obtain ⟨hfx, hfy⟩ := h
      constructor
      · rw [← hfx]; ring
      · rw [← hfy]; ring

/-- Witness for claim C6: for the two nodes 100 apart, the repulsion of node
1 on node 0 is (-25/4, 0) and the repulsion of node 0 on node 1 is its exact
negation. -/
theorem coulomb_repulsion_antisymm_witness :
    coulomb_repulsion OneStepForceBasedLayout.init (posFun pos2) dims20 0 1 =
      some (-(25 / 4), 0) ∧
    coulomb_repulsion OneStepForceBasedLayout.init (posFun pos2) dims20 1 0 =
      some (-(-(25 / 4)), -0) :=
  ⟨rep_pos2_01, coulomb_repulsion_antisymm OneStepForceBasedLayout.init
    (posFun pos2) dims20 0 1 (-(25 / 4)) 0 rep_pos2_01⟩

lemma clamp_abs_le (M x : ℝ) (hM : 0 ≤ M) : |max (min x M) (-M)| ≤ M := by
  rw [abs_le]
  constructor
  · exact le_max_right _ _
  · exact max_le (min_le_right _ _) (by linarith)

lemma scaled_norm_le (c dx dy M : ℝ) (_hM : 0 ≤ M) (hc : |c| ≤ M) :
    Real.sqrt (c * dx * (c * dx) + c * dy * (c * dy)) ≤
      M * Real.sqrt (dx * dx + dy * dy) := by
  have h1 : c * dx * (c * dx) + c * dy * (c * dy) =
      c * c * (dx * dx + dy * dy) := by ring
  rw [h1, Real.sqrt_mul (mul_self_nonneg c), Real.sqrt_mul_self_eq_abs]
  exact mul_le_mul_of_nonneg_right hc (Real.sqrt_nonneg _)

/-- Counterexample to claim C7: at centers (0, 0) and (25, 0) with 20 by 20
boxes, the boundary gap is 5, the clamped scalar is -maxForce = -10, and the
returned repulsion vector is (-50, 0), whose Euclidean magnitude 50 exceeds
maxForce = 10. -/
theorem coulomb_magnitude_exceeds_maxForce :
    coulomb_repulsion OneStepForceBasedLayout.init (posFun pos25) dims20 0 1 =
      some (-50, 0) ∧
    ¬ Real.sqrt ((-50 : ℝ) * (-50) + (0 : ℝ) * 0) ≤
      OneStepForceBasedLayout.init.maxForce := by
  constructor
  · exact rep_pos25_01
  · have h : Real.sqrt ((-50 : ℝ) * (-50) + (0 : ℝ) * 0) = 50 := by
      rw [show ((-50 : ℝ) * (-50) + (0 : ℝ) * 0) = 2500 by norm_num]
      exact sqrt_of_sq (by norm_num) (by norm_num)
    rw [h]
    norm_num [OneStepForceBasedLayout.init]

/-- Claim C7 (amended): each pairwise force is the product of a clamped
scalar and the boundary difference vector; the scalar has absolute value at
most maxForce, hence the Euclidean magnitude of the returned force vector is
at most maxForce times the norm of the boundary difference vector, not at
most maxForce itself. -/
theorem force_scalar_clamped {V : Type} (self : OneStepForceBasedLayout)
    (pos dims : V → ℝ × ℝ) (A B : V) (hmf : 0 ≤ self.maxForce) :
    (∀ fx fy dx dy, coulombDelta pos dims A B = some (dx, dy) →
      coulomb_repulsion self pos dims A B = some (fx, fy) →
      ∃ c, |c| ≤ self.maxForce ∧ fx = c * dx ∧ fy = c * dy ∧
        Real.sqrt (fx * fx + fy * fy) ≤
          self.maxForce * Real.sqrt (dx * dx + dy * dy)) ∧
    (∀ fx fy dx dy, hookeDelta pos dims A B = some (dx, dy) →
      hooke_attraction self pos dims A B = some (fx, fy) →
      ∃ c, |c| ≤ self.maxForce ∧ fx = c * dx ∧ fy = c * dy ∧
        Real.sqrt (fx * fx + fy * fy) ≤
          self.maxForce * Real.sqrt (dx * dx + dy * dy)) := by
  constructor
  · intro fx fy dx dy hcd h
    unfold coulomb_repulsion at h
    rw [hcd] at h
    dsimp only at h
    split at h
    · simp at h
    · simp only [Option.some.injEq, Prod.mk.injEq] at h
      obtain ⟨hfx, hfy⟩ := h
      refine ⟨max (min (-self.electricalRepulsion /
          (Real.sqrt (dx * dx + dy * dy) * Real.sqrt (dx * dx + dy * dy)))
          self.maxForce) (-self.maxForce),
        clamp_abs_le _ _ hmf, hfx.symm, hfy.symm, ?_⟩
      rw [← hfx, ← hfy]
      exact scaled_norm_le _ dx dy _ hmf (clamp_abs_le _ _ hmf)
  · intro fx fy dx dy hcd h
    unfold hookeDelta at hcd
    unfold hooke_attraction at h
    cases hdv : distance_vector_from pos dims A B with
    | none => rw [hdv] at hcd; simp at hcd
    | some t =>
      obtain ⟨x1, y1, x2, y2⟩ := t
      rw [hdv] at h hcd
      dsimp only at h hcd
      simp only [Option.some.injEq, Prod.mk.injEq] at hcd
      obtain ⟨hdx, hdy⟩ := hcd
      subst hdx
      subst hdy
      split at h
      · simp only [Option.some.injEq, Prod.mk.injEq] at h
        obtain ⟨hfx, hfy⟩ := h
        refine ⟨0, by simpa using hmf, by rw [← hfx]; ring,
          by rw [← hfy]; ring, ?_⟩
        rw [← hfx, ← hfy]
        simp only [mul_zero, zero_mul, add_zero, Real.sqrt_zero]
        exact mul_nonneg hmf (Real.sqrt_nonneg _)
      · split at h
        · simp at h
        · simp only [Option.some.injEq, Prod.mk.injEq] at h
          obtain ⟨hfx, hfy⟩ := h
          refine ⟨_, clamp_abs_le _ _ hmf, hfx.symm, hfy.symm, ?_⟩
          rw [← hfx, ← hfy]
          exact scaled_norm_le _ _ _ _ hmf (clamp_abs_le _ _ hmf)

/-- Witness for the amended claim C7, at the counterexample placement: the
scalar is clamped and the magnitude bound maxForce times boundary norm
holds with 50 at most 10 times 5. -/
theorem force_scalar_clamped_witness :
    (0 : ℝ) ≤ OneStepForceBasedLayout.init.maxForce ∧
    ∃ c, |c| ≤ OneStepForceBasedLayout.init.maxForce ∧
      (-50 : ℝ) = c * 5 ∧ (0 : ℝ) = c * 0 ∧
      Real.sqrt ((-50 : ℝ) * (-50) + (0 : ℝ) * 0) ≤
        OneStepForceBasedLayout.init.maxForce *
          Real.sqrt ((5 : ℝ) * 5 + (0 : ℝ) * 0) :=
  ⟨by norm_num [OneStepForceBasedLayout.init],
    (force_scalar_clamped OneStepForceBasedLayout.init (posFun pos25) dims20
      0 1 (by norm_num [OneStepForceBasedLayout.init])).1 (-50) 0 5 0
      cd_pos25_01 rep_pos25_01⟩

lemma div_sq_add_div_sq_eq_one (a b m s : ℝ) (ha : a ≠ 0) (hb : b ≠ 0)
    (hs : 0 < s) (hs2 : s * s = a * a * m * m + b * b) :
    (a * b / s / a) ^ 2 + (a * b * m / s / b) ^ 2 = 1 := by
  have h1 : a * b / s / a = b / s := by
    field_simp
    ring
  have h2 : a * b * m / s / b = a * m / s := by
    field_simp
    ring
  rw [h1, h2, div_pow, div_pow, div_add_div_same,
    div_eq_one_iff_eq (pow_ne_zero 2 (ne_of_gt hs))]
  have h3 : s ^ 2 = s * s := sq s
  rw [h3, hs2]
  ring

/-- Claim C9: for a non-degenerate bounding box (x0 < x1, y0 < y1) and a
target point distinct from the center of the box, Oval.intersection returns
a point of the boundary of the ellipse inscribed in the box (its offset
(dx, dy) from the center satisfies (dx/a)^2 + (dy/b)^2 = 1 for the half-axes
a, b), on the side of the center facing the target; when the target x equals
the center x, the offset is purely vertical with the sign of the target y
minus the center y. -/
theorem oval_intersection_on_ellipse (x0 y0 x1 y1 xe ye : ℝ)
    (hx : x0 < x1) (hy : y0 < y1)
    (hne : ¬(xe = (x1 + x0) / 2 ∧ ye = (y1 + y0) / 2)) :
    ∃ px py,
      Oval.intersection (x0, y0, x1, y1) (xe, ye) = some (px, py) ∧
      ((px - (x1 + x0) / 2) / ((x1 - x0) / 2)) ^ 2 +
        ((py - (y1 + y0) / 2) / ((y1 - y0) / 2)) ^ 2 = 1 ∧
      (xe ≠ (x1 + x0) / 2 →
        0 < (px - (x1 + x0) / 2) * (xe - (x1 + x0) / 2)) ∧
      0 ≤ (py - (y1 + y0) / 2) * (ye - (y1 + y0) / 2) ∧
      (xe = (x1 + x0) / 2 → px = (x1 + x0) / 2 ∧
        0 < (py - (y1 + y0) / 2) * (ye - (y1 + y0) / 2)) := by
  have ha : 0 < x1 - (x1 + x0) / 2 := by linarith
  have hb : 0 < y1 - (y1 + y0) / 2 := by linarith
  have hax : (x1 - x0) / 2 = x1 - (x1 + x0) / 2 := by ring
  have hbx : (y1 - y0) / 2 = y1 - (y1 + y0) / 2 := by ring
  simp only [Oval.intersection]
  by_cases hxe : xe = (x1 + x0) / 2
  · have hye : ye ≠ (y1 + y0) / 2 := fun h => hne ⟨hxe, h⟩
    subst hxe
    rw [if_neg (not_not_intro rfl), if_pos le_rfl,
      if_neg (lt_irrefl ((x1 + x0) / 2))]
    by_cases hy2 : (y1 + y0) / 2 < ye
    · rw [if_pos hy2]
      refine ⟨(x1 + x0) / 2 + 0,
        (y1 + y0) / 2 - (y1 - (y1 + y0) / 2) * (-1 : ℝ), rfl, ?_, ?_, ?_, ?_⟩
      · have e1 : (x1 + x0) / 2 + 0 - (x1 + x0) / 2 = 0 := by ring
        have e2 : (y1 + y0) / 2 - (y1 - (y1 + y0) / 2) * (-1 : ℝ) -
            (y1 + y0) / 2 = y1 - (y1 + y0) / 2 := by ring
        rw [hbx, e1, e2, div_self (ne_of_gt hb)]
        norm_num
      · intro habs
        exact absurd rfl habs
      · have e2 : (y1 + y0) / 2 - (y1 - (y1 + y0) / 2) * (-1 : ℝ) -
            (y1 + y0) / 2 = y1 - (y1 + y0) / 2 := by ring
        rw [e2]
        exact le_of_lt (mul_pos hb (by linarith))
      · intro _
        refine ⟨by ring, ?_⟩
        have e2 : (y1 + y0) / 2 - (y1 - (y1 + y0) / 2) * (-1 : ℝ) -
            (y1 + y0) / 2 = y1 - (y1 + y0) / 2 := by ring
        rw [e2]
        exact mul_pos hb (by linarith)
    · have hy3 : ye < (y1 + y0) / 2 := lt_of_le_of_ne (not_lt.mp hy2) hye
      rw [if_neg hy2]
      refine ⟨(x1 + x0) / 2 + 0,
        (y1 + y0) / 2 - (y1 - (y1 + y0) / 2) * (1 : ℝ), rfl, ?_, ?_, ?_, ?_⟩
      · have e1 : (x1 + x0) / 2 + 0 - (x1 + x0) / 2 = 0 := by ring
        have e2 : (y1 + y0) / 2 - (y1 - (y1 + y0) / 2) * (1 : ℝ) -
            (y1 + y0) / 2 = -(y1 - (y1 + y0) / 2) := by ring
        rw [hbx, e1, e2, neg_div, div_self (ne_of_gt hb)]
        norm_num
      · intro habs
        exact absurd rfl habs
      · have e2 : (y1 + y0) / 2 - (y1 - (y1 + y0) / 2) * (1 : ℝ) -
            (y1 + y0) / 2 = -(y1 - (y1 + y0) / 2) := by ring
        rw [e2]
        nlinarith
      · intro _
        refine ⟨by ring, ?_⟩
        have e2 : (y1 + y0) / 2 - (y1 - (y1 + y0) / 2) * (1 : ℝ) -
            (y1 + y0) / 2 = -(y1 - (y1 + y0) / 2) := by ring
        rw [e2]
        nlinarith
  · rw [if_pos hxe]
    set A := x1 - (x1 + x0) / 2 with hA
    set B := y1 - (y1 + y0) / 2 with hB
    set E := ye - (y1 + y0) / 2 with hE
    set D := xe - (x1 + x0) / 2 with hD
    have hxne : D ≠ 0 := sub_ne_zero.mpr hxe
    have harg : 0 < A * A * (E / D) * (E / D) + B * B := by
      have h1 : 0 ≤ A * A * (E / D) * (E / D) := by
        have e : A * A * (E / D) * (E / D) =
            A * (E / D) * (A * (E / D)) := by ring
        rw [e]
        exact mul_self_nonneg _
      nlinarith [mul_pos hb hb]
    set S := Real.sqrt (A * A * (E / D) * (E / D) + B * B) with hS
    have hspos : 0 < S := Real.sqrt_pos.mpr harg
    have hs2 : S * S = A * A * (E / D) * (E / D) + B * B :=
      Real.mul_self_sqrt (le_of_lt harg)
    rw [if_neg (ne_of_gt hspos)]
    have hdox : 0 < A * B / S := div_pos (mul_pos ha hb) hspos
    have e1 : ∀ u : ℝ, (x1 + x0) / 2 + u - (x1 + x0) / 2 = u :=
      fun u => by ring
    have e2 : ∀ u : ℝ, (y1 + y0) / 2 + u - (y1 + y0) / 2 = u :=
      fun u => by ring
    have e3 : ∀ u : ℝ, (x1 + x0) / 2 - u - (x1 + x0) / 2 = -u :=
      fun u => by ring
    have e4 : ∀ u : ℝ, (y1 + y0) / 2 - u - (y1 + y0) / 2 = -u :=
      fun u => by ring
    by_cases hlt : (x1 + x0) / 2 < xe
    · have hDpos : 0 < D := by rw [hD]; linarith
      rw [if_pos (le_of_lt hlt), if_pos hlt]
      refine ⟨_, _, rfl, ?_, ?_, ?_, ?_⟩
      · rw [hax, hbx, e1, e2]
        exact div_sq_add_div_sq_eq_one A B (E / D) S (ne_of_gt ha)
          (ne_of_gt hb) hspos hs2
      · intro _
        rw [e1]
        exact mul_pos hdox hDpos
      · rw [e2]
        have key : A * B * (E / D) / S * E = A * B / S * (E * E / D) := by
          field_simp
          ring
        rw [key]
        exact mul_nonneg (le_of_lt hdox)
          (div_nonneg (mul_self_nonneg E) (le_of_lt hDpos))
      · intro habs
        exact absurd habs hxe
    · have hlt2 : xe < (x1 + x0) / 2 := lt_of_le_of_ne (not_lt.mp hlt) hxe
      have hDneg : D < 0 := by rw [hD]; linarith
      rw [if_neg (not_le.mpr hlt2), if_neg (not_lt.mpr (le_of_lt hlt2))]
      refine ⟨_, _, rfl, ?_, ?_, ?_, ?_⟩
      · rw [hax, hbx, e3, e4, neg_div, neg_div, neg_sq, neg_sq]
        exact div_sq_add_div_sq_eq_one A B (E / D) S (ne_of_gt ha)
          (ne_of_gt hb) hspos hs2
      · intro _
        rw [e3]
        have h := mul_pos hdox (neg_pos.mpr hDneg)
        nlinarith [h]
      · rw [e4]
        have key : -(A * B * (E / D) / S) * E = A * B / S * (E * E / -D) := by
          field_simp
          ring
        rw [key]
        refine mul_nonneg (le_of_lt hdox) (div_nonneg (mul_self_nonneg E) ?_)
        linarith
      · intro habs
        exact absurd habs hxe

/-- Witness for claim C9: box (0, 0, 20, 20) with center (10, 10) and target
(30, 10); the returned point (20, 10) lies on the inscribed circle. -/
theorem oval_intersection_on_ellipse_witness :
    (0 : ℝ) < 20 ∧
    Oval.intersection ((0 : ℝ), (0 : ℝ), 20, 20) (30, 10) = some (20, 10) ∧
    (∃ px py,
      Oval.intersection ((0 : ℝ), (0 : ℝ), 20, 20) ((30 : ℝ), (10 : ℝ)) =
        some (px, py) ∧
      ((px - (20 + 0) / 2) / ((20 - 0) / 2)) ^ 2 +
        ((py - (20 + 0) / 2) / ((20 - 0) / 2)) ^ 2 = 1 ∧
      ((30 : ℝ) ≠ (20 + 0) / 2 →
        0 < (px - (20 + 0) / 2) * (30 - (20 + 0) / 2)) ∧
      0 ≤ (py - (20 + 0) / 2) * (10 - (20 + 0) / 2) ∧
      ((30 : ℝ) = (20 + 0) / 2 → px = (20 + 0) / 2 ∧
        0 < (py - (20 + 0) / 2) * (10 - (20 + 0) / 2))) :=
  ⟨by norm_num,
   by
     have h100 : Real.sqrt 100 = 10 := sqrt_of_sq (by norm_num) (by norm_num)
     norm_num [Oval.intersection, h100],
   oval_intersection_on_ellipse 0 0 20 20 30 10 (by norm_num) (by norm_num)
     (by norm_num)⟩
